import Mathlib

/-!
Verification of the tracepoint subsystem of CustomMatPlot
(`src/include/include_internal/scp_trace.h`).

The repository ships only the header: the bodies of the `Trace` member
functions live in a `.cpp` file that is not part of `src/`.  Definitions
taken from the header (the `TracePoint` comparison operators, the
`TraceLabelPoint` aggregate with its default member initializers) are
embedded directly from that code.  The member-function bodies are
modelled from the specification, each marked `Modelled from the spec:`.

Graph-space values (`float` in the source) and screen coordinates are
modelled as rationals, so that the linear viewport transforms are exact;
component identity (a `juce::Component*` in the source) is modelled as a
natural-number handle, freshly allocated at construction.
-/

namespace scp

/-- A 2-D point (`juce::Point`). -/
structure Point (α : Type) where
  x : α
  y : α
deriving DecidableEq, Repr

/-- A rectangle (`juce::Rectangle`): position of the top-left corner plus size. -/
structure Rectangle (α : Type) where
  x : α
  y : α
  width : α
  height : α
deriving DecidableEq, Repr

/-- Center of a rectangle. -/
def rectCenter (r : Rectangle ℚ) : Point ℚ :=
  ⟨r.x + r.width / 2, r.y + r.height / 2⟩

/-- The label corner that is located at the tracepoint center
(header lines 22-27). -/
inductive TraceLabelCornerPosition where
  | top_left
  | top_right
  | bottom_left
  | bottom_right
deriving DecidableEq, Repr

/-- A tracepoint (header lines 30-64).  As a `juce::Component` it has screen
bounds (`getPosition()` returns the top-left corner of `bounds`); `id` models
the component's pointer identity; `m_graph_values` holds the x and y values of
the tracepoint. -/
structure TracePoint where
  id : ℕ
  bounds : Rectangle ℚ
  m_graph_values : Point ℚ
deriving DecidableEq, Repr

/-- `juce::Component::getPosition()`: the top-left corner of the bounds. -/
def TracePoint.getPosition (tp : TracePoint) : Point ℚ :=
  ⟨tp.bounds.x, tp.bounds.y⟩

/-- `TracePoint::operator<=>` / `TracePoint::operator==` against another
`TracePoint` (header lines 32-42): both preprocessor branches compare
`this->getPosition()` with `rhs.getPosition()`, i.e. the components' screen
positions. -/
def TracePoint.eqTracePoint (a b : TracePoint) : Bool :=
  decide (a.getPosition = b.getPosition)

/-- `TracePoint::operator==(const juce::Point<ValueType>&)` (header lines
44-47): compares `m_graph_values` with the given graph-space point. -/
def TracePoint.eqGraphPoint (a : TracePoint) (p : Point ℚ) : Bool :=
  decide (a.m_graph_values = p)

/-- A trace label (header lines 70-87).  The two `scp::Label` members render
the x and y values at fixed precision; we model each text line by the value it
renders.  `id` models the component's pointer identity and `bounds` its screen
rectangle. -/
structure TraceLabel where
  id : ℕ
  m_x_label : ℚ
  m_y_label : ℚ
  bounds : Rectangle ℚ
deriving DecidableEq, Repr

/-- A tracelabel and a tracepoint (header lines 93-100).  The two
`unique_ptr`s are modelled as `Option` (`none` = `nullptr`), matching the
default member initializers; `associated_graph_line` is a non-owning
`const GraphLine*`, modelled as an optional opaque handle; the corner
position defaults to `top_left`. -/
structure TraceLabelPoint where
  trace_label : Option TraceLabel := none
  trace_point : Option TracePoint := none
  associated_graph_line : Option ℕ := none
  trace_label_corner_pos : TraceLabelCornerPosition := .top_left
deriving DecidableEq, Repr

/-- Modelled from the spec: the `GraphAttributesView` viewport snapshot — the
plot's pixel bounds and the value ranges mapped onto them (§3 GraphViewport). -/
structure GraphAttributesView where
  graph_bounds : Rectangle ℚ
  x_min : ℚ
  x_max : ℚ
  y_min : ℚ
  y_max : ℚ
deriving DecidableEq, Repr

/-- Modelled from the spec: the value→pixel viewport transform — a linear
mapping of the value range onto the pixel bounds on each axis (§8 scenario:
value range [0,10] → pixel range [0,1000] maps (1,1) to pixel (100,100)). -/
def valueToPixel (ga : GraphAttributesView) (v : Point ℚ) : Point ℚ :=
  ⟨ga.graph_bounds.x + (v.x - ga.x_min) * ga.graph_bounds.width / (ga.x_max - ga.x_min),
   ga.graph_bounds.y + (v.y - ga.y_min) * ga.graph_bounds.height / (ga.y_max - ga.y_min)⟩

/-- Modelled from the spec: the pixel→value inverse transform (§4.4
`setMarkerPosition` converts a screen position to graph space). -/
def pixelToValue (ga : GraphAttributesView) (p : Point ℚ) : Point ℚ :=
  ⟨ga.x_min + (p.x - ga.graph_bounds.x) * (ga.x_max - ga.x_min) / ga.graph_bounds.width,
   ga.y_min + (p.y - ga.graph_bounds.y) * (ga.y_max - ga.y_min) / ga.graph_bounds.height⟩

/-- Modelled from the spec: the marker glyph's fixed visual size (§4.1: the
rectangle size is a fixed visual constant independent of zoom level). -/
def markerSize : ℚ := 10

/-- Modelled from the spec: the marker's screen rectangle, centered on the
transformed coordinate with the fixed visual size (§4.1
`recomputeScreenBounds`). -/
def markerBoundsAt (center : Point ℚ) : Rectangle ℚ :=
  ⟨center.x - markerSize / 2, center.y - markerSize / 2, markerSize, markerSize⟩

/-- Modelled from the spec: the label's size, derived from its two text lines
with fixed padding (§4.2: auto-sized to fit two lines).  Any deterministic
function of the text content works for the claims; we charge a fixed width per
rendered character of the longer line. -/
def labelSize (lbl : TraceLabel) : Point ℚ :=
  ⟨7 * (max (toString lbl.m_x_label).length (toString lbl.m_y_label).length : ℚ) + 10, 40⟩

/-- Modelled from the spec: label rectangle placement — the corner named by
the corner position coincides with the anchor point (§4.2, e.g. `top_left`
means the label extends right/down from the anchor). -/
def labelBoundsFor (anchor : Point ℚ) (corner : TraceLabelCornerPosition)
    (sz : Point ℚ) : Rectangle ℚ :=
  match corner with
  | .top_left => ⟨anchor.x, anchor.y, sz.x, sz.y⟩
  | .top_right => ⟨anchor.x - sz.x, anchor.y, sz.x, sz.y⟩
  | .bottom_left => ⟨anchor.x, anchor.y - sz.y, sz.x, sz.y⟩
  | .bottom_right => ⟨anchor.x - sz.x, anchor.y - sz.y, sz.x, sz.y⟩

/-- The `Trace` manager state: the owned collection `m_trace_labelpoints`
(header line 211) together with a fresh-handle counter modelling the
allocator (each `new` component gets a previously unused address). -/
structure Trace where
  m_trace_labelpoints : List TraceLabelPoint := []
  next_id : ℕ := 0
deriving DecidableEq, Repr

/-- The pointer identity of an entry's tracepoint component (`nullptr` gives
`none`). -/
def markerId (t : TraceLabelPoint) : Option ℕ :=
  t.trace_point.map (·.id)

/-- The existence test used by the toggle operation: does this entry's
tracepoint compare structurally equal to the coordinate
(`*trace_point == trace_point_coordinate`, header lines 44-47)? -/
def tlpMatches (c : Point ℚ) (t : TraceLabelPoint) : Bool :=
  match t.trace_point with
  | some tp => tp.eqGraphPoint c
  | none => false

/-- Modelled from the spec: the freshly constructed entry — a new
`TracePoint` holding the coordinate, a new `TraceLabel` rendering it, the
bound graph line, and the default corner `top_left` (§4.3: construction
initializes Marker value, Label text, default corner `top_left`, and stores
the DataSeries reference).  `n` and `n + 1` are the fresh component
handles. -/
def freshEntry (c : Point ℚ) (graph_line : Option ℕ) (n : ℕ) :
    TraceLabelPoint :=
  { trace_label := some ⟨n + 1, c.x, c.y, ⟨0, 0, 0, 0⟩⟩,
    trace_point := some ⟨n, ⟨0, 0, 0, 0⟩, c⟩,
    associated_graph_line := graph_line,
    trace_label_corner_pos := .top_left }

/-- Modelled from the spec: `Trace::addSingleTracePointAndLabel` (header lines
193-195) — construct and append one fresh entry (§4.4 `toggleTracePoint`
insertion path). -/
def addSingleTracePointAndLabel (c : Point ℚ) (graph_line : Option ℕ)
    (st : Trace) : Trace :=
  { m_trace_labelpoints :=
      st.m_trace_labelpoints ++ [freshEntry c graph_line st.next_id],
    next_id := st.next_id + 2 }

/-- Modelled from the spec: `Trace::removeSingleTracePointAndLabel` (header
lines 197-198) — destroy the entry whose Marker is structurally equal to the
coordinate (§4.4 `toggleTracePoint` removal path). -/
def removeSingleTracePointAndLabel (c : Point ℚ) (st : Trace) : Trace :=
  { st with m_trace_labelpoints :=
      st.m_trace_labelpoints.filter (fun t => ! tlpMatches c t) }

/-- Modelled from the spec: `Trace::addOrRemoveTracePoint` (header lines
124-133) — the tracepoint is removed if it already exists, otherwise a new one
is added (§4.4 `toggleTracePoint`). -/
def addOrRemoveTracePoint (c : Point ℚ) (graph_line : Option ℕ)
    (st : Trace) : Trace :=
  if st.m_trace_labelpoints.any (tlpMatches c) then
    removeSingleTracePointAndLabel c st
  else
    addSingleTracePointAndLabel c graph_line st

/-- Modelled from the spec: `Trace::updateSingleTraceLabelTextsAndBounds`
(header lines 200-202) — re-derive the label's two text lines from the
marker's current graph coordinate and recompute the label rectangle from the
marker anchor and the entry's current corner position (§4.4
`refreshAllBounds`). -/
def updateSingleTraceLabelTextsAndBounds (t : TraceLabelPoint) :
    TraceLabelPoint :=
  match t.trace_point, t.trace_label with
  | some tp, some lbl =>
    let lbl1 : TraceLabel :=
      { lbl with m_x_label := tp.m_graph_values.x,
                 m_y_label := tp.m_graph_values.y }
    let b := labelBoundsFor (rectCenter tp.bounds) t.trace_label_corner_pos
      (labelSize lbl1)
    { t with trace_label := some { lbl1 with bounds := b } }
  | _, _ => t

/-- Modelled from the spec: recompute one entry's marker screen rectangle from
the viewport transform (§4.1 `recomputeScreenBounds`). -/
def setMarkerBoundsFrom (ga : GraphAttributesView) (t : TraceLabelPoint) :
    TraceLabelPoint :=
  match t.trace_point with
  | some tp =>
    let b := markerBoundsAt (valueToPixel ga tp.m_graph_values)
    { t with trace_point := some { tp with bounds := b } }
  | none => t

/-- Modelled from the spec: `Trace::updateTracePointBoundsFrom` (header lines
135-140) — for every entry recompute the marker rectangle from the viewport
transform, then the label text and rectangle (§4.4 `refreshAllBounds`);
zero-sized pixel bounds are treated as a no-op refresh (§7: guard against
division by zero in the inverse transform). -/
def updateTracePointBoundsFrom (ga : GraphAttributesView) (st : Trace) :
    Trace :=
  if ga.graph_bounds.width = 0 ∨ ga.graph_bounds.height = 0 then st
  else
    let pts := st.m_trace_labelpoints.map
      (fun t => updateSingleTraceLabelTextsAndBounds (setMarkerBoundsFrom ga t))
    { st with m_trace_labelpoints := pts }

/-- Modelled from the spec: `Trace::setGraphPositionFor` (header lines
157-166) — convert the new screen position to graph space with the inverse
transform, store it as the marker's graph value (§4.1 `setValue` does not
itself recompute geometry), and recompute that single entry's label text and
bounds (§4.4 `setMarkerPosition`).  The external snapping collaborator is
modelled as the identity. -/
def setGraphPositionFor (trace_point : ℕ) (new_position : Point ℚ)
    (ga : GraphAttributesView) (st : Trace) : Trace :=
  { st with m_trace_labelpoints :=
      st.m_trace_labelpoints.map (fun t =>
        if markerId t = some trace_point then
          updateSingleTraceLabelTextsAndBounds
            (match t.trace_point with
             | some tp =>
               let v := pixelToValue ga new_position
               { t with trace_point := some { tp with m_graph_values := v } }
             | none => t)
        else t) }

/-- Modelled from the spec: the corner chosen from the cursor's position
relative to the marker's screen center (§4.4 `setLabelCorner`: cursor
above-and-left of the marker → the label's `bottom_right` corner touches the
marker; the other quadrants by symmetry; ties resolved by the documented
"greater-or-equal favors right/bottom" rule). -/
def chooseCorner (center mouse : Point ℚ) : TraceLabelCornerPosition :=
  if mouse.x < center.x then
    if mouse.y < center.y then .bottom_right else .top_right
  else
    if mouse.y < center.y then .bottom_left else .top_left

/-- Modelled from the spec: corner update of a single entry — store the chosen
corner and recompute that label's bounds (§4.4 `setLabelCorner`). -/
def setCornerFn (mouse : Point ℚ) (t : TraceLabelPoint) : TraceLabelPoint :=
  match t.trace_point, t.trace_label with
  | some tp, some lbl =>
    let corner := chooseCorner (rectCenter tp.bounds) mouse
    { t with
      trace_label_corner_pos := corner,
      trace_label :=
        some { lbl with bounds := labelBoundsFor (rectCenter tp.bounds) corner (labelSize lbl) } }
  | _, _ => t

/-- Modelled from the spec: `Trace::setCornerPositionForLabelAssociatedWith`
(header lines 174-175) — find the entry owning the tracepoint component and
apply the corner update to it (§4.4 `setLabelCorner`). -/
def setCornerPositionForLabelAssociatedWith (trace_point : ℕ)
    (mouse_position : Point ℚ) (st : Trace) : Trace :=
  { st with m_trace_labelpoints :=
      st.m_trace_labelpoints.map (fun t =>
        if markerId t = some trace_point then setCornerFn mouse_position t
        else t) }

/-- Modelled from the spec: `Trace::findTraceLabelPointIteratorFrom` (header
lines 206-207) — the first entry whose tracepoint component is the given one,
by pointer identity. -/
def findTraceLabelPointFrom (trace_point : ℕ) (st : Trace) :
    Option TraceLabelPoint :=
  st.m_trace_labelpoints.find? (fun t => markerId t = some trace_point)

/-- Modelled from the spec: `Trace::getAssociatedGraphLine` (header lines
116-121) — the associated `GraphLine` if the component is a tracked
tracepoint, else `nullptr` (§4.4 `findDataSeriesFor`; §7: unknown handles give
an explicit not-found result). -/
def getAssociatedGraphLine (trace_point : ℕ) (st : Trace) : Option ℕ :=
  match findTraceLabelPointFrom trace_point st with
  | some t => t.associated_graph_line
  | none => none

/-- Modelled from the spec: `Trace::isComponentTracePoint` (header line 182)
— identity membership test over the tracked marker components. -/
def isComponentTracePoint (c : ℕ) (st : Trace) : Bool :=
  st.m_trace_labelpoints.any (fun t => markerId t = some c)

/-- Modelled from the spec: `Trace::isComponentTraceLabel` (header line 189)
— identity membership test over the tracked label components. -/
def isComponentTraceLabel (c : ℕ) (st : Trace) : Bool :=
  st.m_trace_labelpoints.any (fun t => t.trace_label.map (·.id) = some c)

/-- Two entries hold markers with structurally equal graph-space
coordinates. -/
def sameCoord (a b : TraceLabelPoint) : Prop :=
  ∃ ta tb, a.trace_point = some ta ∧ b.trace_point = some tb ∧
    ta.m_graph_values = tb.m_graph_values

/-- The collection invariant: no two entries hold markers with structurally
equal graph-space coordinates (§3 TraceCollection). -/
def UniqueCoords (l : List TraceLabelPoint) : Prop :=
  l.Pairwise (fun a b => ¬ sameCoord a b)

/-- Every entry of the collection holds a non-null tracepoint and a non-null
tracelabel. -/
def WellFormed (st : Trace) : Prop :=
  ∀ t ∈ st.m_trace_labelpoints, t.trace_label.isSome ∧ t.trace_point.isSome

/-- A concrete viewport: pixel bounds 1000×1000 at the origin, value range
[0,10] on both axes (the §8 scenario viewport). -/
def gaDemo : GraphAttributesView := ⟨⟨0, 0, 1000, 1000⟩, 0, 10, 0, 10⟩

/-- A concrete viewport with zero-sized pixel bounds. -/
def gaDegenerate : GraphAttributesView := ⟨⟨0, 0, 0, 500⟩, 0, 10, 0, 10⟩

/-- The empty manager state. -/
def traceEmpty : Trace := {}

/-- A concrete state holding one tracked point at graph coordinate (10, 5)
bound to graph line 0 (the state reached by one toggle on the empty state). -/
def traceOne : Trace :=
  { m_trace_labelpoints :=
      [{ trace_label := some ⟨1, 10, 5, ⟨0, 0, 0, 0⟩⟩,
         trace_point := some ⟨0, ⟨0, 0, 0, 0⟩, ⟨10, 5⟩⟩,
         associated_graph_line := some 0,
         trace_label_corner_pos := .top_left }],
    next_id := 2 }

/-- The single entry of `traceOne`. -/
def traceOneEntry : TraceLabelPoint :=
  { trace_label := some ⟨1, 10, 5, ⟨0, 0, 0, 0⟩⟩,
    trace_point := some ⟨0, ⟨0, 0, 0, 0⟩, ⟨10, 5⟩⟩,
    associated_graph_line := some 0,
    trace_label_corner_pos := .top_left }

/-- A concrete state holding one tracked point at (10, 5) whose corner
position has been moved away from the default. -/
def traceOneMovedCorner : Trace :=
  { m_trace_labelpoints :=
      [{ trace_label := some ⟨1, 10, 5, ⟨0, 0, 0, 0⟩⟩,
         trace_point := some ⟨0, ⟨0, 0, 0, 0⟩, ⟨10, 5⟩⟩,
         associated_graph_line := some 0,
         trace_label_corner_pos := .bottom_right }],
    next_id := 2 }

/-- The single entry of `traceOne` after dragging its marker to screen
position (500, 300) under the `gaDemo` viewport. -/
def traceOneDragged : TraceLabelPoint :=
  updateSingleTraceLabelTextsAndBounds
    { trace_label := some ⟨1, 10, 5, ⟨0, 0, 0, 0⟩⟩,
      trace_point := some ⟨0, ⟨0, 0, 0, 0⟩, pixelToValue gaDemo ⟨500, 300⟩⟩,
      associated_graph_line := some 0,
      trace_label_corner_pos := .top_left }

/-- A concrete tracepoint: screen position (0, 0), graph value (1, 1). -/
def tpScreenA : TracePoint := ⟨0, ⟨0, 0, 10, 10⟩, ⟨1, 1⟩⟩

/-- A concrete tracepoint: screen position (5, 5), the same graph value
(1, 1) as `tpScreenA`. -/
def tpScreenB : TracePoint := ⟨1, ⟨5, 5, 10, 10⟩, ⟨1, 1⟩⟩

/-- The single entry of `traceOne` after a bounds refresh from `gaDemo`. -/
def traceOneUpdated : TraceLabelPoint :=
  updateSingleTraceLabelTextsAndBounds (setMarkerBoundsFrom gaDemo
    { trace_label := some ⟨1, 10, 5, ⟨0, 0, 0, 0⟩⟩,
      trace_point := some ⟨0, ⟨0, 0, 0, 0⟩, ⟨10, 5⟩⟩,
      associated_graph_line := some 0,
      trace_label_corner_pos := .top_left })

/-- The tracepoint held by `traceOneUpdated`. -/
def tpUpdated : TracePoint :=
  { id := 0,
    bounds := markerBoundsAt (valueToPixel gaDemo ⟨10, 5⟩),
    m_graph_values := ⟨10, 5⟩ }

lemma tlpMatches_iff (c : Point ℚ) (t : TraceLabelPoint) :
    tlpMatches c t = true ↔
      ∃ tp, t.trace_point = some tp ∧ tp.m_graph_values = c := by
  rcases t with ⟨lbl, tp, gl, cp⟩
  cases tp <;> simp [tlpMatches, TracePoint.eqGraphPoint]

lemma sameCoord_of_matches {c : Point ℚ} {a b : TraceLabelPoint}
    (ha : tlpMatches c a = true) (hb : tlpMatches c b = true) :
    sameCoord a b := by
  rcases (tlpMatches_iff c a).mp ha with ⟨ta, hta, hva⟩
  rcases (tlpMatches_iff c b).mp hb with ⟨tb, htb, hvb⟩
  exact ⟨ta, tb, hta, htb, hva.trans hvb.symm⟩

lemma countP_matches_le_one {c : Point ℚ} {l : List TraceLabelPoint}
    (hu : UniqueCoords l) : l.countP (tlpMatches c) ≤ 1 := by
  induction l with
  | nil => simp
  | cons a l ih =>
    rcases List.pairwise_cons.mp hu with ⟨ha, hl⟩
    by_cases hm : tlpMatches c a = true
    · rw [List.countP_cons_of_pos _ _ hm]
      have hz : l.countP (tlpMatches c) = 0 := by
        rw [List.countP_eq_zero]
        intro b hb hmb
        exact ha b hb (sameCoord_of_matches hm hmb)
      omega
    · rw [List.countP_cons_of_neg _ _ hm]
      exact ih hl

lemma countP_matches_eq_one {c : Point ℚ} {l : List TraceLabelPoint}
    (hu : UniqueCoords l) (hx : l.any (tlpMatches c) = true) :
    l.countP (tlpMatches c) = 1 := by
  have h1 := countP_matches_le_one (c := c) hu
  have h2 : 0 < l.countP (tlpMatches c) := by
    rw [List.countP_pos_iff]
    rcases List.any_eq_true.mp hx with ⟨a, hmem, hma⟩
    exact ⟨a, hmem, hma⟩
  omega

lemma length_filter_not_matches {c : Point ℚ} {l : List TraceLabelPoint}
    (hu : UniqueCoords l) (hx : l.any (tlpMatches c) = true) :
    (l.filter (fun t => ! tlpMatches c t)).length + 1 = l.length := by
  have hone := countP_matches_eq_one hu hx
  have hsplit : ∀ l2 : List TraceLabelPoint, l2.countP (tlpMatches c) +
      l2.countP (fun t => ! tlpMatches c t) = l2.length := by
    intro l2
    induction l2 with
    | nil => simp
    | cons a l2 ih =>
      rw [List.countP_cons, List.countP_cons]
      by_cases hm : tlpMatches c a = true <;> simp [hm] <;> omega
  have hs := hsplit l
  rw [← List.countP_eq_length_filter]
  omega

lemma tlpMatches_fresh (c : Point ℚ) (gl : Option ℕ) (n : ℕ) :
    tlpMatches c (freshEntry c gl n) = true := by
  simp [tlpMatches, freshEntry, TracePoint.eqGraphPoint]

lemma uniqueCoords_addOrRemove (c : Point ℚ) (gl : Option ℕ) (st : Trace)
    (hu : UniqueCoords st.m_trace_labelpoints) :
    UniqueCoords (addOrRemoveTracePoint c gl st).m_trace_labelpoints := by
  unfold addOrRemoveTracePoint
  by_cases hx : st.m_trace_labelpoints.any (tlpMatches c) = true
  · rw [if_pos hx]
    exact List.Pairwise.sublist (List.filter_sublist _) hu
  · rw [if_neg hx]
    have hall : ∀ a ∈ st.m_trace_labelpoints, tlpMatches c a = false :=
      fun a ha => Bool.eq_false_iff.mpr
        ((List.any_eq_false.mp (Bool.eq_false_iff.mpr hx)) a ha)
    unfold addSingleTracePointAndLabel UniqueCoords
    dsimp only
    rw [List.pairwise_append]
    refine ⟨hu, List.pairwise_singleton _ _, ?_⟩
    intro a ha b hb hsc
    rcases List.mem_singleton.mp hb with rfl
    rcases hsc with ⟨ta, tb, hta, htb, hv⟩
    have htb2 : tb = ⟨st.next_id, ⟨0, 0, 0, 0⟩, c⟩ := by
      simpa [freshEntry] using htb.symm
    have hma : tlpMatches c a = true := by
      rw [tlpMatches_iff]
      refine ⟨ta, hta, ?_⟩
      rw [hv, htb2]
    rw [hall a ha] at hma
    exact Bool.false_ne_true hma

lemma updateSingle_trace_point (t : TraceLabelPoint) :
    (updateSingleTraceLabelTextsAndBounds t).trace_point = t.trace_point := by
  rcases t with ⟨lbl, tp, gl, cp⟩
  cases tp <;> cases lbl <;> rfl

lemma updateSingle_corner (t : TraceLabelPoint) :
    (updateSingleTraceLabelTextsAndBounds t).trace_label_corner_pos =
      t.trace_label_corner_pos := by
  rcases t with ⟨lbl, tp, gl, cp⟩
  cases tp <;> cases lbl <;> rfl

lemma updateSingle_line (t : TraceLabelPoint) :
    (updateSingleTraceLabelTextsAndBounds t).associated_graph_line =
      t.associated_graph_line := by
  rcases t with ⟨lbl, tp, gl, cp⟩
  cases tp <;> cases lbl <;> rfl

lemma updateSingle_label_isSome (t : TraceLabelPoint) :
    (updateSingleTraceLabelTextsAndBounds t).trace_label.isSome =
      t.trace_label.isSome := by
  rcases t with ⟨lbl, tp, gl, cp⟩
  cases tp <;> cases lbl <;> rfl

lemma setMarkerBoundsFrom_label (ga : GraphAttributesView)
    (t : TraceLabelPoint) :
    (setMarkerBoundsFrom ga t).trace_label = t.trace_label := by
  rcases t with ⟨lbl, tp, gl, cp⟩
  cases tp <;> rfl

lemma setMarkerBoundsFrom_point_isSome (ga : GraphAttributesView)
    (t : TraceLabelPoint) :
    (setMarkerBoundsFrom ga t).trace_point.isSome = t.trace_point.isSome := by
  rcases t with ⟨lbl, tp, gl, cp⟩
  cases tp <;> rfl

lemma setCornerFn_trace_point (m : Point ℚ) (t : TraceLabelPoint) :
    (setCornerFn m t).trace_point = t.trace_point := by
  rcases t with ⟨lbl, tp, gl, cp⟩
  cases tp <;> cases lbl <;> rfl

lemma setCornerFn_label_isSome (m : Point ℚ) (t : TraceLabelPoint) :
    (setCornerFn m t).trace_label.isSome = t.trace_label.isSome := by
  rcases t with ⟨lbl, tp, gl, cp⟩
  cases tp <;> cases lbl <;> rfl

lemma setCornerFn_markerId (m : Point ℚ) (t : TraceLabelPoint) :
    markerId (setCornerFn m t) = markerId t := by
  rw [markerId, markerId, setCornerFn_trace_point]

lemma setCornerFn_idem (m : Point ℚ) (t : TraceLabelPoint) :
    setCornerFn m (setCornerFn m t) = setCornerFn m t := by
  rcases t with ⟨lbl, tp, gl, cp⟩
  cases tp <;> cases lbl <;> rfl

lemma find?_map_pres {α : Type} (q : α → Bool) (g : α → α)
    (hq : ∀ a, q (g a) = q a) (l : List α) :
    (l.map g).find? q = (l.find? q).map g := by
  induction l with
  | nil => rfl
  | cons a l ih =>
    by_cases h : q a = true
    · simp [List.find?_cons, hq, h]
    · rw [Bool.not_eq_true] at h
      simp [List.find?_cons, hq, h, ih]

lemma map_fix {α : Type} (g : α → α) (hg : ∀ a, g (g a) = g a)
    (l : List α) : (l.map g).map g = l.map g := by
  induction l with
  | nil => rfl
  | cons a l ih => simp [hg, ih]

/-- C4 counterexample: two tracepoints with structurally equal graph-space
coordinates but different screen positions compare unequal under the
member comparison operator, and moving one onto the other's screen position
flips the result — so Marker-vs-Marker equality does depend on screen
position. -/
theorem tracePoint_eq_depends_on_screen :
    tpScreenA.m_graph_values = tpScreenB.m_graph_values ∧
    TracePoint.eqTracePoint tpScreenA tpScreenB = false ∧
    TracePoint.eqTracePoint tpScreenA { tpScreenB with bounds := tpScreenA.bounds } = true := by
  refine ⟨rfl, ?_, ?_⟩ <;> decide

/-- C4 (amended): comparing a Marker against a raw graph-space coordinate is
structural — equal iff the stored coordinate pairs are exactly equal — and is
independent of the Marker's screen rectangle; but comparing a Marker against
another Marker compares the components' screen positions instead, so that
comparison does depend on layout. -/
theorem tracePoint_equality_characterization (a b : TracePoint) (p : Point ℚ) :
    (TracePoint.eqGraphPoint a p = true ↔ a.m_graph_values = p) ∧
    (∀ r : Rectangle ℚ, TracePoint.eqGraphPoint { a with bounds := r } p =
        TracePoint.eqGraphPoint a p) ∧
    (TracePoint.eqTracePoint a b = true ↔ a.getPosition = b.getPosition) := by
  refine ⟨?_, fun r => rfl, ?_⟩
  · simp [TracePoint.eqGraphPoint]
  · simp [TracePoint.eqTracePoint]

/-- C7: refreshing bounds from a viewport with zero-sized pixel bounds is a
no-op: the state is returned unchanged and no transform arithmetic is
performed. -/
theorem updateTracePointBoundsFrom_degenerate_noop (ga : GraphAttributesView)
    (st : Trace) (h : ga.graph_bounds.width = 0 ∨ ga.graph_bounds.height = 0) :
    updateTracePointBoundsFrom ga st = st := by
  unfold updateTracePointBoundsFrom
  rw [if_pos h]

/-- Witness for C7 at a zero-width viewport and a one-entry state. -/
theorem updateTracePointBoundsFrom_degenerate_noop_witness :
    (gaDegenerate.graph_bounds.width = 0 ∨ gaDegenerate.graph_bounds.height = 0) ∧
    updateTracePointBoundsFrom gaDegenerate traceOne = traceOne :=
  ⟨Or.inl rfl,
    updateTracePointBoundsFrom_degenerate_noop gaDegenerate traceOne (Or.inl rfl)⟩

/-- C6: looking up the associated graph line for a component that is not one
of the tracked tracepoints returns `none` (the `nullptr` not-found result),
and for a tracked tracepoint it returns exactly the graph line stored in the
owning entry. -/
theorem getAssociatedGraphLine_spec (h : ℕ) (st : Trace) :
    ((∀ t ∈ st.m_trace_labelpoints, markerId t ≠ some h) →
       getAssociatedGraphLine h st = none) ∧
    (∀ t, findTraceLabelPointFrom h st = some t →
       getAssociatedGraphLine h st = t.associated_graph_line ∧
       t ∈ st.m_trace_labelpoints ∧ markerId t = some h) := by
  constructor
  · intro hall
    have hnone : findTraceLabelPointFrom h st = none := by
      unfold findTraceLabelPointFrom
      rw [List.find?_eq_none]
      intro t ht
      simpa using hall t ht
    unfold getAssociatedGraphLine
    rw [hnone]
  · intro t hf
    have hp := List.find?_some hf
    have hm := List.mem_of_find?_eq_some hf
    unfold getAssociatedGraphLine
    rw [hf]
    exact ⟨rfl, hm, by simpa using hp⟩

/-- Witness for C6: on a one-entry state, handle 99 is unknown and yields
`none`; the tracked handle 0 yields the stored graph line 0. -/
theorem getAssociatedGraphLine_spec_witness :
    (∀ t ∈ traceOne.m_trace_labelpoints, markerId t ≠ some 99) ∧
    getAssociatedGraphLine 99 traceOne = none ∧
    getAssociatedGraphLine 0 traceOne = some 0 := by
  have h99 : ∀ t ∈ traceOne.m_trace_labelpoints, markerId t ≠ some 99 := by decide
  refine ⟨h99, (getAssociatedGraphLine_spec 99 traceOne).1 h99, ?_⟩
  exact ((getAssociatedGraphLine_spec 0 traceOne).2
    { trace_label := some ⟨1, 10, 5, ⟨0, 0, 0, 0⟩⟩,
      trace_point := some ⟨0, ⟨0, 0, 0, 0⟩, ⟨10, 5⟩⟩,
      associated_graph_line := some 0,
      trace_label_corner_pos := .top_left } (by decide)).1

/-- C1: a single toggle call on a collection satisfying the uniqueness
invariant either — when no entry matches the coordinate — appends exactly one
freshly constructed entry bound to the given graph line and removes nothing,
or — when an entry matches — removes exactly that matching entry (the
surviving entries are precisely the non-matching ones, and the length drops by
one) and adds nothing. -/
theorem addOrRemoveTracePoint_single_toggle (c : Point ℚ) (gl : Option ℕ)
    (st : Trace) (hu : UniqueCoords st.m_trace_labelpoints) :
    (st.m_trace_labelpoints.any (tlpMatches c) = false →
      (addOrRemoveTracePoint c gl st).m_trace_labelpoints =
        st.m_trace_labelpoints ++ [freshEntry c gl st.next_id]) ∧
    (st.m_trace_labelpoints.any (tlpMatches c) = true →
      (addOrRemoveTracePoint c gl st).m_trace_labelpoints =
        st.m_trace_labelpoints.filter (fun t => ! tlpMatches c t) ∧
      (addOrRemoveTracePoint c gl st).m_trace_labelpoints.length + 1 =
        st.m_trace_labelpoints.length) := by
  constructor
  · intro hf
    unfold addOrRemoveTracePoint
    rw [hf, if_neg Bool.false_ne_true]
    rfl
  · intro hx
    unfold addOrRemoveTracePoint
    rw [hx, if_pos rfl]
    exact ⟨rfl, length_filter_not_matches hu hx⟩

/-- Witness for C1: one toggle on the empty collection yields exactly the
one-entry collection at (10, 5) bound to graph line 0. -/
theorem addOrRemoveTracePoint_single_toggle_witness :
    UniqueCoords traceEmpty.m_trace_labelpoints ∧
    (addOrRemoveTracePoint ⟨10, 5⟩ (some 0) traceEmpty).m_trace_labelpoints =
      traceOne.m_trace_labelpoints :=
  ⟨List.Pairwise.nil,
    ((addOrRemoveTracePoint_single_toggle ⟨10, 5⟩ (some 0) traceEmpty
      List.Pairwise.nil).1 rfl).trans (by decide)⟩

/-- C2: the uniqueness invariant — no two entries hold markers with
structurally equal graph-space coordinates — is preserved by every finite
sequence of toggle calls. -/
theorem trace_uniqueCoords_invariant (ops : List (Point ℚ × Option ℕ))
    (st : Trace) (hu : UniqueCoords st.m_trace_labelpoints) :
    UniqueCoords
      ((ops.foldl (fun s op => addOrRemoveTracePoint op.1 op.2 s)
        st).m_trace_labelpoints) := by
  induction ops generalizing st with
  | nil => exact hu
  | cons op ops ih => exact ih _ (uniqueCoords_addOrRemove op.1 op.2 st hu)

/-- Witness for C2: two toggles at distinct coordinates starting from the
empty collection. -/
theorem trace_uniqueCoords_invariant_witness :
    UniqueCoords traceEmpty.m_trace_labelpoints ∧
    UniqueCoords
      ((([(⟨10, 5⟩, some 0), (⟨2, 4⟩, some 1)] :
          List (Point ℚ × Option ℕ)).foldl
        (fun s op => addOrRemoveTracePoint op.1 op.2 s)
        traceEmpty).m_trace_labelpoints) :=
  ⟨List.Pairwise.nil,
    trace_uniqueCoords_invariant _ traceEmpty List.Pairwise.nil⟩

/-- C3 counterexample: toggling the same coordinate twice does not leave the
collection with the same set of entries — on the remove-then-add path the
matching entry is destroyed and replaced by a freshly constructed one, so a
non-default corner position is reset to `top_left`. -/
theorem addOrRemoveTracePoint_twice_changes_entries :
    (addOrRemoveTracePoint ⟨10, 5⟩ (some 0)
        (addOrRemoveTracePoint ⟨10, 5⟩ (some 0)
          traceOneMovedCorner)).m_trace_labelpoints ≠
      traceOneMovedCorner.m_trace_labelpoints ∧
    (addOrRemoveTracePoint ⟨10, 5⟩ (some 0)
        (addOrRemoveTracePoint ⟨10, 5⟩ (some 0)
          traceOneMovedCorner)).m_trace_labelpoints.map
        (·.trace_label_corner_pos) = [.top_left] ∧
    traceOneMovedCorner.m_trace_labelpoints.map (·.trace_label_corner_pos) =
      [.bottom_right] := by
  refine ⟨?_, ?_, ?_⟩ <;> decide

/-- C3 (amended): under the uniqueness invariant, toggling the same coordinate
twice preserves the cardinality of the collection; when no entry matched the
coordinate the collection is restored exactly (add then remove); when one
matched, the surviving entries are the non-matching originals plus one freshly
constructed entry at that coordinate bound to the given graph line, with the
default corner position. -/
theorem addOrRemoveTracePoint_twice (c : Point ℚ) (gl : Option ℕ) (st : Trace)
    (hu : UniqueCoords st.m_trace_labelpoints) :
    ((addOrRemoveTracePoint c gl
        (addOrRemoveTracePoint c gl st)).m_trace_labelpoints.length =
       st.m_trace_labelpoints.length) ∧
    (st.m_trace_labelpoints.any (tlpMatches c) = false →
      (addOrRemoveTracePoint c gl
          (addOrRemoveTracePoint c gl st)).m_trace_labelpoints =
        st.m_trace_labelpoints) ∧
    (st.m_trace_labelpoints.any (tlpMatches c) = true →
      (addOrRemoveTracePoint c gl
          (addOrRemoveTracePoint c gl st)).m_trace_labelpoints =
        st.m_trace_labelpoints.filter (fun t => ! tlpMatches c t) ++
          [freshEntry c gl st.next_id]) := by
  by_cases hx : st.m_trace_labelpoints.any (tlpMatches c) = true
  · have h1 : addOrRemoveTracePoint c gl st = removeSingleTracePointAndLabel c st := by
      unfold addOrRemoveTracePoint
      rw [hx, if_pos rfl]
    have h2 : (removeSingleTracePointAndLabel c st).m_trace_labelpoints.any
        (tlpMatches c) = false := by
      rw [List.any_eq_false]
      intro t ht
      have hmem := List.mem_filter.mp ht
      simpa using hmem.2
    have h3 : addOrRemoveTracePoint c gl (removeSingleTracePointAndLabel c st) =
        addSingleTracePointAndLabel c gl (removeSingleTracePointAndLabel c st) := by
      unfold addOrRemoveTracePoint
      rw [h2, if_neg Bool.false_ne_true]
    have hlen := length_filter_not_matches hu hx
    refine ⟨?_, ?_, ?_⟩
    · rw [h1, h3]
      simp only [addSingleTracePointAndLabel, removeSingleTracePointAndLabel,
        List.length_append, List.length_cons, List.length_nil]
      omega
    · intro hf
      rw [hf] at hx
      exact absurd hx Bool.false_ne_true
    · intro _
      rw [h1, h3]
      rfl
  · have hf : st.m_trace_labelpoints.any (tlpMatches c) = false :=
      Bool.eq_false_iff.mpr hx
    have h1 : addOrRemoveTracePoint c gl st = addSingleTracePointAndLabel c gl st := by
      unfold addOrRemoveTracePoint
      rw [hf, if_neg Bool.false_ne_true]
    have h2 : (addSingleTracePointAndLabel c gl st).m_trace_labelpoints.any
        (tlpMatches c) = true := by
      rw [List.any_eq_true]
      exact ⟨_, List.mem_append_right _ (List.mem_singleton_self _),
        tlpMatches_fresh c gl st.next_id⟩
    have h3 : addOrRemoveTracePoint c gl (addSingleTracePointAndLabel c gl st) =
        removeSingleTracePointAndLabel c (addSingleTracePointAndLabel c gl st) := by
      unfold addOrRemoveTracePoint
      rw [h2, if_pos rfl]
    have hlist : (removeSingleTracePointAndLabel c
        (addSingleTracePointAndLabel c gl st)).m_trace_labelpoints =
        st.m_trace_labelpoints := by
      show (st.m_trace_labelpoints ++ [freshEntry c gl st.next_id]).filter
          (fun t => ! tlpMatches c t) = st.m_trace_labelpoints
      rw [List.filter_append]
      have hfl : st.m_trace_labelpoints.filter (fun t => ! tlpMatches c t) =
          st.m_trace_labelpoints :=
        List.filter_eq_self.mpr (fun a ha => by
          have hfa := Bool.eq_false_iff.mpr ((List.any_eq_false.mp hf) a ha)
          simp [hfa])
      have hfe : ([freshEntry c gl st.next_id] :
            List TraceLabelPoint).filter (fun t => ! tlpMatches c t) = [] := by
        simp [List.filter, tlpMatches_fresh]
      rw [hfl, hfe, List.append_nil]
    refine ⟨?_, ?_, ?_⟩
    · rw [h1, h3, hlist]
    · intro _
      rw [h1, h3, hlist]
    · intro hcontr
      rw [hcontr] at hf
      exact absurd hf.symm Bool.false_ne_true

/-- Witness for C3 (amended): toggling (10, 5) twice from the empty
collection restores it. -/
theorem addOrRemoveTracePoint_twice_witness :
    UniqueCoords traceEmpty.m_trace_labelpoints ∧
    (addOrRemoveTracePoint ⟨10, 5⟩ (some 0)
        (addOrRemoveTracePoint ⟨10, 5⟩ (some 0)
          traceEmpty)).m_trace_labelpoints = traceEmpty.m_trace_labelpoints :=
  ⟨List.Pairwise.nil,
    (addOrRemoveTracePoint_twice ⟨10, 5⟩ (some 0) traceEmpty
      List.Pairwise.nil).2.1 rfl⟩

/-- C5: after a bounds refresh from a viewport with non-degenerate pixel
bounds, every entry's marker screen rectangle is the fixed-size rectangle
centered on the viewport transform of that marker's stored graph-space
coordinate. -/
theorem updateTracePointBoundsFrom_marker_rect (ga : GraphAttributesView)
    (st : Trace) (hw : ga.graph_bounds.width ≠ 0)
    (hh : ga.graph_bounds.height ≠ 0) :
    ∀ t ∈ (updateTracePointBoundsFrom ga st).m_trace_labelpoints,
      ∀ tp, t.trace_point = some tp →
        tp.bounds = markerBoundsAt (valueToPixel ga tp.m_graph_values) := by
  intro t ht tp htp
  have hcond : ¬(ga.graph_bounds.width = 0 ∨ ga.graph_bounds.height = 0) := by
    push_neg
    exact ⟨hw, hh⟩
  unfold updateTracePointBoundsFrom at ht
  rw [if_neg hcond] at ht
  rcases List.mem_map.mp ht with ⟨t0, ht0, rfl⟩
  rw [updateSingle_trace_point] at htp
  rcases t0 with ⟨lbl0, tp0, gl0, cp0⟩
  cases tp0 with
  | none => exact absurd htp (by simp [setMarkerBoundsFrom])
  | some tp0 =>
    have hred : setMarkerBoundsFrom ga ⟨lbl0, some tp0, gl0, cp0⟩ =
        ⟨lbl0, some { tp0 with
          bounds := markerBoundsAt (valueToPixel ga tp0.m_graph_values) },
          gl0, cp0⟩ := rfl
    rw [hred] at htp
    obtain rfl := Option.some.inj htp
    rfl

/-- Witness for C5 at the §8 scenario viewport and the one-entry state. -/
theorem updateTracePointBoundsFrom_marker_rect_witness :
    gaDemo.graph_bounds.width ≠ 0 ∧
    tpUpdated.bounds = markerBoundsAt (valueToPixel gaDemo tpUpdated.m_graph_values) :=
  ⟨by decide,
    updateTracePointBoundsFrom_marker_rect gaDemo traceOne (by decide) (by decide)
      traceOneUpdated (List.mem_singleton_self _) tpUpdated rfl⟩

/-- C8: the corner choice is a deterministic function of the marker's screen
center and the cursor position — each open quadrant is always mapped to the
same fixed corner; the corner stored for the entry owning the tracepoint is
exactly that function of its marker center and the cursor; and repeating the
call with the same arguments leaves the state unchanged. -/
theorem setCornerPosition_deterministic :
    (∀ ctr m : Point ℚ,
      (m.x < ctr.x → m.y < ctr.y → chooseCorner ctr m = .bottom_right) ∧
      (ctr.x < m.x → m.y < ctr.y → chooseCorner ctr m = .bottom_left) ∧
      (m.x < ctr.x → ctr.y < m.y → chooseCorner ctr m = .top_right) ∧
      (ctr.x < m.x → ctr.y < m.y → chooseCorner ctr m = .top_left)) ∧
    (∀ (h : ℕ) (m : Point ℚ) (st : Trace) (t : TraceLabelPoint)
       (tp : TracePoint),
      findTraceLabelPointFrom h st = some t → t.trace_point = some tp →
      t.trace_label.isSome = true →
      findTraceLabelPointFrom h (setCornerPositionForLabelAssociatedWith h m st) =
        some (setCornerFn m t) ∧
      (setCornerFn m t).trace_label_corner_pos =
        chooseCorner (rectCenter tp.bounds) m) ∧
    (∀ (h : ℕ) (m : Point ℚ) (st : Trace),
      setCornerPositionForLabelAssociatedWith h m
        (setCornerPositionForLabelAssociatedWith h m st) =
      setCornerPositionForLabelAssociatedWith h m st) := by
  refine ⟨?_, ?_, ?_⟩
  · intro ctr m
    refine ⟨?_, ?_, ?_, ?_⟩ <;> intro h1 h2 <;> unfold chooseCorner
    · rw [if_pos h1, if_pos h2]
    · rw [if_neg (lt_asymm h1), if_pos h2]
    · rw [if_pos h1, if_neg (lt_asymm h2)]
    · rw [if_neg (lt_asymm h1), if_neg (lt_asymm h2)]
  · intro h m st t tp hf htp hlbl
    have hmid : markerId t = some h := by
      simpa using List.find?_some hf
    have hpres : ∀ a : TraceLabelPoint,
        (decide (markerId a = some h)) =
          (decide (markerId (if markerId a = some h then setCornerFn m a
            else a) = some h)) := by
      intro a
      by_cases hma : markerId a = some h
      · rw [if_pos hma, setCornerFn_markerId]
      · rw [if_neg hma]
    constructor
    · unfold setCornerPositionForLabelAssociatedWith findTraceLabelPointFrom
      rw [find?_map_pres _ _ (fun a => (hpres a).symm)]
      have hf2 : st.m_trace_labelpoints.find?
          (fun t => decide (markerId t = some h)) = some t := hf
      rw [hf2, Option.map_some']
      rw [if_pos hmid]
    · rcases t with ⟨lbl0, tp0, gl0, cp0⟩
      cases lbl0 with
      | none => simp at hlbl
      | some lbl0 =>
        have htp2 : tp0 = some tp := htp
        rw [htp2]
        rfl
  · intro h m st
    unfold setCornerPositionForLabelAssociatedWith
    dsimp only
    congr 1
    apply map_fix
    intro a
    by_cases hma : markerId a = some h
    · rw [if_pos hma]
      rw [if_pos (by rw [setCornerFn_markerId]; exact hma)]
      rw [setCornerFn_idem]
    · rw [if_neg hma, if_neg hma]

/-- Witness for C8: the cursor (0, 0) lies in the open above-left quadrant of
center (5, 5) and yields `bottom_right`; the stored corner for the tracked
entry equals the corner function of its marker center and the cursor; a
repeated call is a no-op. -/
theorem setCornerPosition_deterministic_witness :
    ((0 : ℚ) < 5) ∧
    chooseCorner ⟨5, 5⟩ ⟨0, 0⟩ = .bottom_right ∧
    (setCornerFn ⟨3, 4⟩ traceOneEntry).trace_label_corner_pos =
      chooseCorner (rectCenter
        ((⟨0, ⟨0, 0, 0, 0⟩, ⟨10, 5⟩⟩ : TracePoint).bounds)) ⟨3, 4⟩ ∧
    setCornerPositionForLabelAssociatedWith 0 ⟨3, 4⟩
        (setCornerPositionForLabelAssociatedWith 0 ⟨3, 4⟩ traceOne) =
      setCornerPositionForLabelAssociatedWith 0 ⟨3, 4⟩ traceOne :=
  ⟨by decide,
    (setCornerPosition_deterministic.1 ⟨5, 5⟩ ⟨0, 0⟩).1 (by decide) (by decide),
    ((setCornerPosition_deterministic.2.1 0 ⟨3, 4⟩ traceOne traceOneEntry
      ⟨0, ⟨0, 0, 0, 0⟩, ⟨10, 5⟩⟩ (by decide) rfl rfl).2),
    setCornerPosition_deterministic.2.2 0 ⟨3, 4⟩ traceOne⟩

/-- C9: `setGraphPositionFor` updates only the entry owning the given
tracepoint component — its marker's graph value becomes the inverse transform
of the new position and its label text is re-derived from that value, while
its corner position, graph line binding, component identity and marker bounds
are kept — and every entry at any other index is left completely
unchanged. -/
theorem setGraphPositionFor_frame (hnd : ℕ) (p : Point ℚ)
    (ga : GraphAttributesView) (st : Trace) :
    ((setGraphPositionFor hnd p ga st).m_trace_labelpoints.length =
       st.m_trace_labelpoints.length) ∧
    (∀ (i : ℕ) told tnew, st.m_trace_labelpoints[i]? = some told →
      (setGraphPositionFor hnd p ga st).m_trace_labelpoints[i]? = some tnew →
      ((markerId told ≠ some hnd → tnew = told) ∧
       (markerId told = some hnd →
         tnew.trace_label_corner_pos = told.trace_label_corner_pos ∧
         tnew.associated_graph_line = told.associated_graph_line ∧
         markerId tnew = markerId told ∧
         (∀ tpn, tnew.trace_point = some tpn →
            tpn.m_graph_values = pixelToValue ga p ∧
            (∀ tpo, told.trace_point = some tpo →
               tpn.bounds = tpo.bounds ∧ tpn.id = tpo.id)) ∧
         (∀ lbl, tnew.trace_label = some lbl →
            lbl.m_x_label = (pixelToValue ga p).x ∧
            lbl.m_y_label = (pixelToValue ga p).y)))) := by
  constructor
  · simp [setGraphPositionFor]
  · intro i told tnew hold hnew
    have hnew2 : (st.m_trace_labelpoints.map (fun t =>
        if markerId t = some hnd then
          updateSingleTraceLabelTextsAndBounds
            (match t.trace_point with
             | some tp =>
               let v := pixelToValue ga p
               { t with trace_point := some { tp with m_graph_values := v } }
             | none => t)
        else t))[i]? = some tnew := hnew
    rw [List.getElem?_map, hold, Option.map_some'] at hnew2
    have htnew := Option.some.inj hnew2
    subst htnew
    constructor
    · intro hne
      simp only [if_neg hne]
    · intro heq
      simp only [if_pos heq]
      rcases told with ⟨lbl0, tp0, gl0, cp0⟩
      cases tp0 with
      | none => simp [markerId] at heq
      | some tp0 =>
        cases lbl0 with
        | none =>
          refine ⟨rfl, rfl, rfl, ?_, ?_⟩
          · intro tpn htpn
            obtain rfl := (Option.some.inj htpn).symm
            refine ⟨rfl, ?_⟩
            intro tpo htpo
            obtain rfl := Option.some.inj htpo
            exact ⟨rfl, rfl⟩
          · intro lbl hl
            simp [updateSingleTraceLabelTextsAndBounds] at hl
        | some lbl0 =>
          refine ⟨rfl, rfl, rfl, ?_, ?_⟩
          · intro tpn htpn
            obtain rfl := (Option.some.inj htpn).symm
            refine ⟨rfl, ?_⟩
            intro tpo htpo
            obtain rfl := Option.some.inj htpo
            exact ⟨rfl, rfl⟩
          · intro lbl hl
            obtain rfl := (Option.some.inj hl).symm
            exact ⟨rfl, rfl⟩

/-- Witness for C9 on the one-entry state: dragging the marker of entry 0
keeps its corner position, graph line binding and component identity. -/
theorem setGraphPositionFor_frame_witness :
    traceOne.m_trace_labelpoints[0]? = some traceOneEntry ∧
    (setGraphPositionFor 0 ⟨500, 300⟩ gaDemo
        traceOne).m_trace_labelpoints[0]? = some traceOneDragged ∧
    traceOneDragged.trace_label_corner_pos =
      traceOneEntry.trace_label_corner_pos ∧
    traceOneDragged.associated_graph_line =
      traceOneEntry.associated_graph_line ∧
    markerId traceOneDragged = markerId traceOneEntry :=
  have h := ((setGraphPositionFor_frame 0 ⟨500, 300⟩ gaDemo traceOne).2
    0 traceOneEntry traceOneDragged rfl rfl).2 rfl
  ⟨rfl, rfl, h.1, h.2.1, h.2.2.1⟩

/-- C10: starting from a collection whose entries all hold non-null
tracepoint and tracelabel pointers, every public operation — toggle, bounds
refresh, position set and corner set — preserves that shape, and any entry
newly inserted by a toggle has both pointers non-null and its corner position
initialized to `top_left`. -/
theorem trace_wellFormed_invariant (c : Point ℚ) (gl : Option ℕ)
    (ga : GraphAttributesView) (hnd : ℕ) (p m : Point ℚ) (st : Trace)
    (hwf : WellFormed st) :
    WellFormed (addOrRemoveTracePoint c gl st) ∧
    (∀ t ∈ (addOrRemoveTracePoint c gl st).m_trace_labelpoints,
       t ∉ st.m_trace_labelpoints →
       t.trace_label_corner_pos = .top_left ∧
       t.trace_label.isSome = true ∧ t.trace_point.isSome = true) ∧
    WellFormed (updateTracePointBoundsFrom ga st) ∧
    WellFormed (setGraphPositionFor hnd p ga st) ∧
    WellFormed (setCornerPositionForLabelAssociatedWith hnd m st) := by
  refine ⟨?_, ?_, ?_, ?_, ?_⟩
  · intro t ht
    unfold addOrRemoveTracePoint at ht
    by_cases hx : st.m_trace_labelpoints.any (tlpMatches c) = true
    · rw [if_pos hx] at ht
      exact hwf t (List.mem_of_mem_filter ht)
    · rw [if_neg hx] at ht
      rcases List.mem_append.mp ht with hmem | hmem
      · exact hwf t hmem
      · obtain rfl := List.mem_singleton.mp hmem
        exact ⟨rfl, rfl⟩
  · intro t ht hnot
    unfold addOrRemoveTracePoint at ht
    by_cases hx : st.m_trace_labelpoints.any (tlpMatches c) = true
    · rw [if_pos hx] at ht
      exact absurd (List.mem_of_mem_filter ht) hnot
    · rw [if_neg hx] at ht
      rcases List.mem_append.mp ht with hmem | hmem
      · exact absurd hmem hnot
      · obtain rfl := List.mem_singleton.mp hmem
        exact ⟨rfl, rfl, rfl⟩
  · intro t ht
    unfold updateTracePointBoundsFrom at ht
    by_cases hc : ga.graph_bounds.width = 0 ∨ ga.graph_bounds.height = 0
    · rw [if_pos hc] at ht
      exact hwf t ht
    · rw [if_neg hc] at ht
      rcases List.mem_map.mp ht with ⟨t0, ht0, rfl⟩
      constructor
      · rw [updateSingle_label_isSome, setMarkerBoundsFrom_label]
        exact (hwf t0 ht0).1
      · rw [updateSingle_trace_point, setMarkerBoundsFrom_point_isSome]
        exact (hwf t0 ht0).2
  · intro t ht
    rcases List.mem_map.mp ht with ⟨t0, ht0, rfl⟩
    by_cases hm : markerId t0 = some hnd
    · rw [if_pos hm]
      rcases t0 with ⟨lbl0, tp0, gl0, cp0⟩
      cases tp0 with
      | none => simp [markerId] at hm
      | some tp0 =>
        cases lbl0 with
        | none => exact absurd (hwf _ ht0).1 (by simp)
        | some lbl0 => exact ⟨rfl, rfl⟩
    · rw [if_neg hm]
      exact hwf t0 ht0
  · intro t ht
    rcases List.mem_map.mp ht with ⟨t0, ht0, rfl⟩
    by_cases hm : markerId t0 = some hnd
    · rw [if_pos hm]
      constructor
      · rw [setCornerFn_label_isSome]
        exact (hwf t0 ht0).1
      · rw [setCornerFn_trace_point]
        exact (hwf t0 ht0).2
    · rw [if_neg hm]
      exact hwf t0 ht0

/-- Witness for C10: the empty collection is well formed, and one toggle on
it yields a well-formed collection whose sole (new) entry defaults to
`top_left`. -/
theorem trace_wellFormed_invariant_witness :
    WellFormed traceEmpty ∧
    WellFormed (addOrRemoveTracePoint ⟨10, 5⟩ (some 0) traceEmpty) ∧
    (∀ t ∈ (addOrRemoveTracePoint ⟨10, 5⟩ (some 0)
        traceEmpty).m_trace_labelpoints,
       t ∉ traceEmpty.m_trace_labelpoints →
       t.trace_label_corner_pos = .top_left ∧
       t.trace_label.isSome = true ∧ t.trace_point.isSome = true) :=
  have hwf : WellFormed traceEmpty := fun t ht => absurd ht (List.not_mem_nil t)
  have h := trace_wellFormed_invariant ⟨10, 5⟩ (some 0) gaDemo 0 ⟨1, 2⟩ ⟨3, 4⟩
    traceEmpty hwf
  ⟨hwf, h.1, h.2.1⟩

end scp
